import Mathlib

/-!
# Verification of the divider balance-ledger engine

Shallow embedding of the core of the `divider` expense-sharing program
(`src/core/transaction.rs`, `src/core/ledger.rs`, `src/core/error.rs`,
`src/core/user.rs`) and proofs about the claims of its specification.

Modelling conventions:
* `Amount` (Rust `f32`) is modelled as the exact rationals `ℚ`.  Properties
  either relate the model's own computed quantities branch-for-branch (so
  rounding would affect both sides of the statement alike), or are confined to
  fragments whose `f32` evaluation mirrors the exact result: float-exact
  literals, a subtraction guarded by the code's own `== 0.0` check, and single
  subtraction/negation pairs (IEEE rounding commutes with negation).  No
  property is claimed that hinges on re-summing rounded `Even` shares: in
  `f32` ten shares of `1.0/10` re-sum to `1.0000001`, a behaviour the exact
  model cannot reproduce.
* Rust `HashMap<UserName, Amount>` is modelled as an association list without
  duplicate-key insertion (`insertAmt` overwrites, mirroring `HashMap::insert`;
  `addAmt` mirrors `entry(..).or_insert(0)` followed by `+=`).  Iteration order
  of the model is insertion order; `HashMap` iteration order is unspecified in
  Rust, so statements that depend on iteration order are avoided.
* The `datetime` field and the ambient clock (`Utc::now()`) are not modelled:
  no claim concerns timestamps.
* Fallible Rust functions returning `Result<T, TransactionError>` become
  `Except TransactionError T`; `&mut self` methods that can fail part-way
  return the (possibly mutated) state together with an optional error.
-/

attribute [local semireducible] Rat.add Rat.sub Rat.mul Rat.inv

deriving instance DecidableEq for Except

/-- Rust `pub type UserName = String` (`src/core/user.rs`). -/
abbrev UserName := String

/-- Rust `pub type Amount = f32`, modelled as exact rationals. -/
abbrev Amount := ℚ

/-- `TransactionError` from `src/core/error.rs`. -/
inductive TransactionError where
  | InsufficientBenefits (specified spent : Amount)
  | ExcessBenefits (specified spent : Amount)
  | UnknownUser (name : UserName)
  | UnknownTransactionId (tid : Nat)
deriving DecidableEq

/-- `Benefit` from `src/core/transaction.rs`. -/
inductive Benefit where
  | Sum (amt : Amount)
  | Even
deriving DecidableEq

/-- A `HashMap<UserName, Amount>` modelled as an association list. -/
abbrev UAMap := List (UserName × Amount)

/-- Key lookup in the map model (`HashMap::get`). -/
def lookupAmt : UAMap → UserName → Option Amount
  | [], _ => none
  | p :: rest, u => if p.1 = u then some p.2 else lookupAmt rest u

/-- `HashMap::insert`: overwrite the value if the key is present, else add the entry. -/
def insertAmt : UAMap → UserName → Amount → UAMap
  | [], u, v => [(u, v)]
  | p :: rest, u, v => if p.1 = u then (p.1, v) :: rest else p :: insertAmt rest u v

/-- `*map.entry(u).or_insert(0) += d`: add `d` to the existing value, defaulting to `0`. -/
def addAmt : UAMap → UserName → Amount → UAMap
  | [], u, d => [(u, d)]
  | p :: rest, u, d => if p.1 = u then (p.1, p.2 + d) :: rest else p :: addAmt rest u d

/-- `map.get_mut(u)` followed by `*val += d`: `none` when the key is absent. -/
def setAdd : UAMap → UserName → Amount → Option UAMap
  | [], _, _ => none
  | p :: rest, u, d =>
    if p.1 = u then some ((p.1, p.2 + d) :: rest)
    else (setAdd rest u d).map (p :: ·)

/-- The key list of a map model. -/
def keysOf (m : UAMap) : List UserName := m.map Prod.fst

/-- The `Transaction` struct from `src/core/transaction.rs` (timestamp omitted,
see the module docstring). -/
structure Transaction where
  id : Nat
  contributions : List (UserName × Amount)
  benefits : List (UserName × Benefit)
  is_direct : Bool
  description : String
deriving DecidableEq

/-- Lowercase-hex rendering of `{:04x}` used by `Transaction::reverse`
for the `"Undo <id>"` description. -/
def hex04 (n : Nat) : String :=
  let ds := Nat.toDigits 16 n
  String.mk (List.replicate (4 - ds.length) (Char.ofNat 48) ++ ds)

/-- `Transaction::total_spending`: sum of all contribution amounts. -/
def Transaction.total_spending (t : Transaction) : Amount :=
  (t.contributions.map Prod.snd).sum

/-- `Transaction::specified_benefits`: sum of all `Sum` benefit amounts. -/
def Transaction.specified_benefits (t : Transaction) : Amount :=
  (t.benefits.map (fun p => match p.2 with | Benefit.Sum v => v | Benefit.Even => 0)).sum

/-- `Transaction::num_even_benefits`: count of `Even` benefit entries. -/
def Transaction.num_even_benefits (t : Transaction) : Nat :=
  t.benefits.foldl (fun c p => match p.2 with | Benefit.Even => c + 1 | _ => c) 0

/-- `Transaction::benefits_per_even`: the split-calculation algorithm. -/
def Transaction.benefits_per_even (t : Transaction) : Except TransactionError Amount :=
  let spending := t.total_spending
  let specified := t.specified_benefits
  if specified > spending then
    Except.error (TransactionError.ExcessBenefits specified spending)
  else
    let num_evens := t.num_even_benefits
    let total_amount_evens := spending - specified
    if total_amount_evens > 0 ∧ num_evens = 0 then
      Except.error (TransactionError.InsufficientBenefits specified spending)
    else if total_amount_evens = 0 ∧ num_evens = 0 then
      Except.ok 0
    else
      Except.ok (total_amount_evens / (num_evens : Amount))

/-- The final amount a benefit entry owes, given the per-even share `b`. -/
def finalBenefit (b : Amount) : Benefit → Amount
  | Benefit.Sum v => v
  | Benefit.Even => b

/-- `Transaction::balance_updates`: contributions are `insert`ed (overwriting a
previous entry of the same user), benefit amounts are subtracted via
`entry(..).or_insert(0) -= final`. -/
def Transaction.balance_updates (t : Transaction) : Except TransactionError UAMap :=
  match t.benefits_per_even with
  | Except.error e => Except.error e
  | Except.ok b =>
    let m := t.contributions.foldl (fun m p => insertAmt m p.1 p.2) []
    Except.ok (t.benefits.foldl (fun m p => addAmt m p.1 (-(finalBenefit b p.2))) m)

/-- `Transaction::reverse`: beneficiaries become contributors (Even entries pay
the per-even share of the original), contributors become `Sum` beneficiaries;
the result is always non-direct with id 0. -/
def Transaction.reverse (t : Transaction) : Except TransactionError Transaction :=
  match t.benefits_per_even with
  | Except.error e => Except.error e
  | Except.ok b => Except.ok
    { id := 0
      contributions := t.benefits.map (fun p => (p.1, finalBenefit b p.2))
      benefits := t.contributions.map (fun p => (p.1, Benefit.Sum p.2))
      is_direct := false
      description := "Undo " ++ hex04 t.id }

/-- The `Ledger` struct from `src/core/ledger.rs`.  The `users` map
(`HashMap<UserName, User>` where `User` carries only its name) is modelled as
the list of its keys. -/
structure Ledger where
  next_id : Nat
  balances : UAMap
  users : List UserName
  transactions : List Transaction
  total_spend : Amount
deriving DecidableEq

/-- `Ledger::CONSISTENCY_CHECK_INTERVAL`. -/
def CONSISTENCY_CHECK_INTERVAL : Nat := 100

/-- Insertion into the `users` map (`HashMap::insert` keyed by the name;
the stored `User` value is just the name again). -/
def insertName (ns : List UserName) (n : UserName) : List UserName :=
  if n ∈ ns then ns else ns ++ [n]

/-- `Ledger::new`: zero balances and user records for each given name. -/
def Ledger.new (user_names : List UserName) : Ledger :=
  { next_id := 1
    balances := user_names.foldl (fun m n => insertAmt m n 0) []
    users := user_names.foldl insertName []
    transactions := []
    total_spend := 0 }

/-- `Ledger::add_user`: inserts into `users` only (no balance entry is seeded). -/
def Ledger.add_user (l : Ledger) (name : UserName) : Ledger :=
  { l with users := insertName l.users name }

/-- `Ledger::update_balances`: applies the deltas one by one with `get_mut`,
stopping at the first user absent from `balances`; entries already processed
stay mutated. -/
def update_balances : UAMap → UAMap → Option TransactionError × UAMap
  | balances, [] => (none, balances)
  | balances, (u, d) :: rest =>
    match setAdd balances u d with
    | none => (some (TransactionError.UnknownUser u), balances)
    | some b2 => update_balances b2 rest

/-- `Ledger::apply_transaction` (static): `total_spend` is incremented for a
non-direct transaction *before* `balance_updates` can fail. -/
def Ledger.apply_transaction (total_spend : Amount) (balances : UAMap) (t : Transaction) :
    Option TransactionError × Amount × UAMap :=
  let ts := if t.is_direct then total_spend else total_spend + t.total_spending
  match t.balance_updates with
  | Except.error e => (some e, ts, balances)
  | Except.ok changes =>
    let r := update_balances balances changes
    (r.1, ts, r.2)

/-- The fold of `apply_transaction` over a transaction list performed by
`Ledger::reapply_all`, aborting (and discarding the locals) on the first error. -/
def applyAll : Amount → UAMap → List Transaction → Except TransactionError (Amount × UAMap)
  | total, bal, [] => Except.ok (total, bal)
  | total, bal, t :: rest =>
    match Ledger.apply_transaction total bal t with
    | (some e, _, _) => Except.error e
    | (none, ts, b2) => applyAll ts b2 rest

/-- `self.balances.keys().map(|user| (user.clone(), 0.0)).collect()`. -/
def zeroedBalances (m : UAMap) : UAMap := m.map (fun p => (p.1, (0 : Amount)))

/-- `Ledger::reapply_all`: replay the whole history from zeroed balances and
zero total spend; only on success are the recomputed values committed. -/
def Ledger.reapply_all (l : Ledger) : Option TransactionError × Ledger :=
  match applyAll 0 (zeroedBalances l.balances) l.transactions with
  | Except.error e => (some e, l)
  | Except.ok (nt, nb) => (none, { l with total_spend := nt, balances := nb })

/-- `Ledger::needs_consistency_check`. -/
def Ledger.needs_consistency_check (l : Ledger) : Bool :=
  l.transactions.length % CONSISTENCY_CHECK_INTERVAL == 0

/-- The ledger state right after a successful `apply_transaction` followed by
`assign_transaction_id` and the push: the appended transaction carries the
ledger-assigned id `next_id`, whatever id the caller supplied. -/
def Ledger.afterPush (l : Ledger) (t : Transaction) (ts : Amount) (bal : UAMap) : Ledger :=
  { l with
    total_spend := ts
    balances := bal
    next_id := l.next_id + 1
    transactions := l.transactions ++ [{ t with id := l.next_id }] }

/-- `Ledger::add_transaction`: the core write path.  On an apply error the
(partially) mutated `total_spend`/`balances` are kept, matching `&mut self`. -/
def Ledger.add_transaction (l : Ledger) (t : Transaction) : Option TransactionError × Ledger :=
  match Ledger.apply_transaction l.total_spend l.balances t with
  | (some e, ts, bal) => (some e, { l with total_spend := ts, balances := bal })
  | (none, ts, bal) =>
    let l1 := l.afterPush t ts bal
    if l1.needs_consistency_check then l1.reapply_all else (none, l1)

/-- The direct `Transaction` built by `Ledger::add_transfer`. -/
def transferTxn (src dst : UserName) (amount : Amount) (description : String) : Transaction :=
  { id := 0
    contributions := [(src, amount)]
    benefits := [(dst, Benefit.Sum amount)]
    is_direct := true
    description := description }

/-- `Ledger::add_transfer`. -/
def Ledger.add_transfer (l : Ledger) (src dst : UserName) (amount : Amount)
    (description : String) : Option TransactionError × Ledger :=
  l.add_transaction (transferTxn src dst amount description)

/-- `Ledger::add_expense`. -/
def Ledger.add_expense (l : Ledger) (contributions : List (UserName × Amount))
    (benefits : List (UserName × Benefit)) (description : String) :
    Option TransactionError × Ledger :=
  l.add_transaction
    { id := 0
      contributions := contributions
      benefits := benefits
      is_direct := false
      description := description }

/-- Modelled from the spec: `Ledger::reverse_by_id` is invoked by the CLI
(`src/bin/cli.rs`) but its definition is not under `src/`.  Per spec section 4.2:
locate the transaction with the matching id in history; if absent fail with
`UnknownTransactionId(id)`; otherwise compute its `reverse()` and run it
through `add_transaction`. -/
def Ledger.reverse_by_id (l : Ledger) (tid : Nat) : Option TransactionError × Ledger :=
  match l.transactions.find? (fun t => t.id == tid) with
  | none => (some (TransactionError.UnknownTransactionId tid), l)
  | some t =>
    match t.reverse with
    | Except.error e => (some e, l)
    | Except.ok r => l.add_transaction r

/-- The public mutating operations of `Ledger` (with `reverse_by_id` as
modelled above), used to characterise reachable ledger states. -/
inductive LedgerOp where
  | addUser (name : UserName)
  | addExpense (contributions : List (UserName × Amount))
      (benefits : List (UserName × Benefit)) (description : String)
  | addTransfer (src dst : UserName) (amount : Amount) (description : String)
  | addTransaction (t : Transaction)
  | reverseById (tid : Nat)

/-- Run one public operation, keeping the resulting state (errors reported to
the caller do not roll the state back, matching `&mut self`). -/
def execOp (l : Ledger) : LedgerOp → Ledger
  | LedgerOp.addUser n => l.add_user n
  | LedgerOp.addExpense c b d => (l.add_expense c b d).2
  | LedgerOp.addTransfer s t a d => (l.add_transfer s t a d).2
  | LedgerOp.addTransaction t => (l.add_transaction t).2
  | LedgerOp.reverseById i => (l.reverse_by_id i).2

/-- Run a sequence of public operations. -/
def execOps (l : Ledger) (ops : List LedgerOp) : Ledger := ops.foldl execOp l

/-- Key lookup in a benefit list (first match), mirroring `lookupAmt`. -/
def lookupBen : List (UserName × Benefit) → UserName → Option Benefit
  | [], _ => none
  | p :: rest, u => if p.1 = u then some p.2 else lookupBen rest u

/-- The total final benefit amount that the entries of `bs` assign to user `k`,
given the per-even share `b`: this is what the benefit loop of
`balance_updates` subtracts from `k` in total. -/
def sumBenefitsFor (b : Amount) (k : UserName) (bs : List (UserName × Benefit)) : Amount :=
  ((bs.filter (fun p => p.1 == k)).map (fun p => finalBenefit b p.2)).sum

/-- `reverse()` followed by `balance_updates()` on the result. -/
def revUpdates (t : Transaction) : Except TransactionError UAMap :=
  match t.reverse with
  | Except.error e => Except.error e
  | Except.ok r => r.balance_updates


/-! ## Lemmas about the map model -/

theorem lookupAmt_isSome_iff (m : UAMap) (k : UserName) :
    (lookupAmt m k).isSome ↔ k ∈ keysOf m := by
  induction m with
  | nil => simp [lookupAmt, keysOf]
  | cons p rest ih =>
    simp only [lookupAmt, keysOf, List.map_cons, List.mem_cons]
    by_cases h : p.1 = k
    · simp [h]
    · rw [if_neg h, ih, or_iff_right (fun hh : k = p.1 => h hh.symm)]
      exact Iff.rfl

theorem lookupAmt_insertAmt (m : UAMap) (u k : UserName) (v : Amount) :
    lookupAmt (insertAmt m u v) k = if k = u then some v else lookupAmt m k := by
  induction m with
  | nil =>
    by_cases hk : k = u
    · simp [insertAmt, lookupAmt, hk]
    · simp [insertAmt, lookupAmt, hk, Ne.symm hk]
  | cons p rest ih =>
    by_cases hp : p.1 = u
    · by_cases hk : k = u
      · simp [insertAmt, lookupAmt, hp, hk]
      · simp [insertAmt, lookupAmt, hp, hk, Ne.symm hk]
    · by_cases hpk : p.1 = k
      · have hk : ¬ k = u := fun hh => hp (hpk ▸ hh)
        simp [insertAmt, lookupAmt, hp, hk, hpk]
      · simp [insertAmt, lookupAmt, hp, hpk, ih]

theorem lookupAmt_addAmt (m : UAMap) (u k : UserName) (d : Amount) :
    lookupAmt (addAmt m u d) k =
      if k = u then some ((lookupAmt m u).getD 0 + d) else lookupAmt m k := by
  induction m with
  | nil =>
    by_cases hk : k = u
    · simp [addAmt, lookupAmt, hk]
    · simp [addAmt, lookupAmt, hk, Ne.symm hk]
  | cons p rest ih =>
    by_cases hp : p.1 = u
    · by_cases hk : k = u
      · simp [addAmt, lookupAmt, hp, hk]
      · simp [addAmt, lookupAmt, hp, hk, Ne.symm hk]
    · by_cases hpk : p.1 = k
      · have hk : ¬ k = u := fun hh => hp (hpk ▸ hh)
        simp [addAmt, lookupAmt, hp, hk, hpk]
      · simp [addAmt, lookupAmt, hp, hpk, ih]

theorem keysOf_addAmt (m : UAMap) (u : UserName) (d : Amount) :
    keysOf (addAmt m u d) = if u ∈ keysOf m then keysOf m else keysOf m ++ [u] := by
  induction m with
  | nil => simp [addAmt, keysOf]
  | cons p rest ih =>
    by_cases hp : p.1 = u
    · simp [addAmt, keysOf, hp]
    · have hup : ¬ u = p.1 := fun hh => hp hh.symm
      by_cases hm : u ∈ keysOf rest
      · simp only [addAmt, if_neg hp, keysOf, List.map_cons] at ih ⊢
        simp only [keysOf] at hm ih
        simp [hm, ih, hup]
      · simp only [addAmt, if_neg hp, keysOf, List.map_cons] at ih ⊢
        simp only [keysOf] at hm ih
        simp [hm, ih, hup]

theorem setAdd_isSome_iff (m : UAMap) (u : UserName) (d : Amount) :
    (setAdd m u d).isSome ↔ u ∈ keysOf m := by
  induction m with
  | nil => simp [setAdd, keysOf]
  | cons p rest ih =>
    simp only [setAdd, keysOf, List.map_cons, List.mem_cons]
    by_cases h : p.1 = u
    · simp [h]
    · rw [if_neg h, Option.isSome_map', ih, or_iff_right (fun hh : u = p.1 => h hh.symm)]
      exact Iff.rfl

theorem setAdd_keys (m m2 : UAMap) (u : UserName) (d : Amount)
    (h : setAdd m u d = some m2) : keysOf m2 = keysOf m := by
  induction m generalizing m2 with
  | nil => simp [setAdd] at h
  | cons p rest ih =>
    by_cases hp : p.1 = u
    · simp only [setAdd, if_pos hp, Option.some.injEq] at h
      subst h
      simp [keysOf]
    · simp only [setAdd, if_neg hp, Option.map_eq_some'] at h
      obtain ⟨m3, h3, hm⟩ := h
      subst hm
      have h4 := ih m3 h3
      simp only [keysOf, List.map_cons] at h4 ⊢
      simp [h4]

theorem setAdd_lookup (m m2 : UAMap) (u : UserName) (d : Amount)
    (h : setAdd m u d = some m2) (k : UserName) :
    lookupAmt m2 k = if k = u then (lookupAmt m u).map (· + d) else lookupAmt m k := by
  induction m generalizing m2 with
  | nil => simp [setAdd] at h
  | cons p rest ih =>
    by_cases hp : p.1 = u
    · simp only [setAdd, if_pos hp, Option.some.injEq] at h
      subst h
      by_cases hk : k = u
      · simp [lookupAmt, hp, hk]
      · have hpk : ¬ p.1 = k := fun hh => hk (hp ▸ hh).symm
        simp [lookupAmt, hpk, hk]
    · simp only [setAdd, if_neg hp, Option.map_eq_some'] at h
      obtain ⟨m3, h3, hm⟩ := h
      subst hm
      by_cases hpk : p.1 = k
      · have hk : ¬ k = u := fun hh => hp (hpk ▸ hh)
        simp [lookupAmt, hpk, hk]
      · simp [lookupAmt, hpk, hp, ih m3 h3]

/-! ## Lemmas about the ledger write path -/

theorem keysOf_zeroed (m : UAMap) : keysOf (zeroedBalances m) = keysOf m := by
  simp [zeroedBalances, keysOf]

theorem update_balances_keys (ch : UAMap) : ∀ bal : UAMap,
    keysOf (update_balances bal ch).2 = keysOf bal := by
  induction ch with
  | nil => intro bal; simp [update_balances]
  | cons p rest ih =>
    intro bal
    obtain ⟨u, d⟩ := p
    simp only [update_balances]
    cases h : setAdd bal u d with
    | none => simp
    | some b2 => exact (ih b2).trans (setAdd_keys bal b2 u d h)

theorem update_balances_none_iff (ch : UAMap) : ∀ bal : UAMap,
    (update_balances bal ch).1 = none ↔ ∀ p ∈ ch, p.1 ∈ keysOf bal := by
  induction ch with
  | nil => intro bal; simp [update_balances]
  | cons p rest ih =>
    intro bal
    obtain ⟨u, d⟩ := p
    simp only [update_balances]
    cases h : setAdd bal u d with
    | none =>
      have hnm : ¬ u ∈ keysOf bal := by
        rw [← setAdd_isSome_iff bal u d, h]
        simp
      simp [hnm]
    | some b2 =>
      have hm : u ∈ keysOf bal := by
        rw [← setAdd_isSome_iff bal u d, h]
        simp
      simp [ih b2, setAdd_keys bal b2 u d h, hm]

theorem apply_transaction_total (ts : Amount) (bal : UAMap) (t : Transaction) :
    (Ledger.apply_transaction ts bal t).2.1 =
      if t.is_direct then ts else ts + t.total_spending := by
  simp only [Ledger.apply_transaction]
  cases t.balance_updates <;> simp

theorem apply_transaction_keys (ts : Amount) (bal : UAMap) (t : Transaction) :
    keysOf (Ledger.apply_transaction ts bal t).2.2 = keysOf bal := by
  simp only [Ledger.apply_transaction]
  cases t.balance_updates <;> simp [update_balances_keys]

theorem apply_transaction_none_iff (ts : Amount) (bal : UAMap) (t : Transaction) :
    (Ledger.apply_transaction ts bal t).1 = none ↔
      ∃ ch, t.balance_updates = Except.ok ch ∧ ∀ p ∈ ch, p.1 ∈ keysOf bal := by
  simp only [Ledger.apply_transaction]
  cases h : t.balance_updates with
  | error e => simp [h]
  | ok ch => simp [h, update_balances_none_iff]

theorem applyAll_keys (ts : List Transaction) : ∀ (tot : Amount) (bal : UAMap) (t2 : Amount)
    (b2 : UAMap), applyAll tot bal ts = Except.ok (t2, b2) → keysOf b2 = keysOf bal := by
  induction ts with
  | nil =>
    intro tot bal t2 b2 h
    simp only [applyAll, Except.ok.injEq, Prod.mk.injEq] at h
    rw [← h.2]
  | cons t rest ih =>
    intro tot bal t2 b2 h
    rcases hap : Ledger.apply_transaction tot bal t with ⟨o, ts3, b3⟩
    cases o with
    | some e => simp [applyAll, hap] at h
    | none =>
      simp only [applyAll, hap] at h
      have hk := apply_transaction_keys tot bal t
      rw [hap] at hk
      exact (ih ts3 b3 t2 b2 h).trans hk

/-- Changing only the id of a transaction does not affect its balance updates. -/
theorem balance_updates_set_id (t : Transaction) (n : Nat) :
    Transaction.balance_updates { t with id := n } = t.balance_updates := rfl

theorem applyAll_ok (ts : List Transaction) (bal0 : UAMap)
    (hok : ∀ t ∈ ts, ∃ ch, t.balance_updates = Except.ok ch ∧ ∀ p ∈ ch, p.1 ∈ keysOf bal0) :
    ∀ (tot : Amount) (bal : UAMap), keysOf bal = keysOf bal0 →
      ∃ r, applyAll tot bal ts = Except.ok r := by
  induction ts with
  | nil => intro tot bal _; exact ⟨(tot, bal), rfl⟩
  | cons t rest ih =>
    intro tot bal hk
    rcases hap : Ledger.apply_transaction tot bal t with ⟨o, ts3, b3⟩
    have hnone : o = none := by
      obtain ⟨ch, hch, hmem⟩ := hok t (List.mem_cons_self t rest)
      have := (apply_transaction_none_iff tot bal t).mpr
        ⟨ch, hch, fun p hp => by rw [hk]; exact hmem p hp⟩
      rw [hap] at this
      exact this
    subst hnone
    have hk3 : keysOf b3 = keysOf bal0 := by
      have := apply_transaction_keys tot bal t
      rw [hap] at this
      exact this.trans hk
    obtain ⟨r, hr⟩ := ih (fun t2 ht2 => hok t2 (List.mem_cons_of_mem t ht2)) ts3 b3 hk3
    exact ⟨r, by simp [applyAll, hap, hr]⟩

theorem reapply_all_shape (l : Ledger) :
    (l.reapply_all).2.transactions = l.transactions ∧
    (l.reapply_all).2.next_id = l.next_id ∧
    (l.reapply_all).2.users = l.users ∧
    keysOf (l.reapply_all).2.balances = keysOf l.balances := by
  simp only [Ledger.reapply_all]
  cases h : applyAll 0 (zeroedBalances l.balances) l.transactions with
  | error e => simp
  | ok r =>
    obtain ⟨nt, nb⟩ := r
    have := applyAll_keys l.transactions 0 (zeroedBalances l.balances) nt nb h
    simp only [keysOf_zeroed] at this
    simp [this]

/-- Every transaction in the history yields balance updates whose users are all
present in the balance map: the invariant that makes a full replay succeed. -/
def HistOk (l : Ledger) : Prop :=
  ∀ t ∈ l.transactions, ∃ ch, t.balance_updates = Except.ok ch ∧ ∀ p ∈ ch, p.1 ∈ keysOf l.balances

theorem reapply_all_ok (l : Ledger) (h : HistOk l) : (l.reapply_all).1 = none := by
  obtain ⟨r, hr⟩ := applyAll_ok l.transactions l.balances h 0 (zeroedBalances l.balances)
    (keysOf_zeroed l.balances)
  obtain ⟨nt, nb⟩ := r
  simp [Ledger.reapply_all, hr]

theorem afterPush_fields (l : Ledger) (t : Transaction) (ts : Amount) (bal : UAMap) :
    (l.afterPush t ts bal).transactions = l.transactions ++ [{ t with id := l.next_id }] ∧
    (l.afterPush t ts bal).next_id = l.next_id + 1 ∧
    (l.afterPush t ts bal).users = l.users ∧
    (l.afterPush t ts bal).balances = bal ∧
    (l.afterPush t ts bal).total_spend = ts := by
  simp [Ledger.afterPush]

theorem add_transaction_ok_shape (l : Ledger) (t : Transaction)
    (h : (l.add_transaction t).1 = none) :
    (l.add_transaction t).2.transactions = l.transactions ++ [{ t with id := l.next_id }] ∧
    (l.add_transaction t).2.next_id = l.next_id + 1 ∧
    (l.add_transaction t).2.users = l.users ∧
    keysOf (l.add_transaction t).2.balances = keysOf l.balances := by
  rcases hap : Ledger.apply_transaction l.total_spend l.balances t with ⟨o, ts2, b2⟩
  have hkb2 : keysOf b2 = keysOf l.balances := by
    have := apply_transaction_keys l.total_spend l.balances t
    rw [hap] at this
    exact this
  cases o with
  | some e => simp [Ledger.add_transaction, hap] at h
  | none =>
    simp only [Ledger.add_transaction, hap]
    by_cases hc : (l.afterPush t ts2 b2).needs_consistency_check = true
    · simp only [hc, if_true]
      have hs := reapply_all_shape (l.afterPush t ts2 b2)
      simp only [Ledger.afterPush] at hs ⊢
      exact ⟨hs.1, hs.2.1, hs.2.2.1, hs.2.2.2.trans hkb2⟩
    · simp only [hc, if_false]
      simp [Ledger.afterPush, hkb2]

theorem add_transaction_err_shape (l : Ledger) (t : Transaction) (e : TransactionError)
    (hap1 : (Ledger.apply_transaction l.total_spend l.balances t).1 = some e) :
    l.add_transaction t =
      (some e, { l with
        total_spend := (Ledger.apply_transaction l.total_spend l.balances t).2.1
        balances := (Ledger.apply_transaction l.total_spend l.balances t).2.2 }) := by
  rcases hap : Ledger.apply_transaction l.total_spend l.balances t with ⟨o, ts2, b2⟩
  rw [hap] at hap1
  simp only at hap1
  subst hap1
  simp [Ledger.add_transaction, hap]

theorem histOk_same (l l2 : Ledger) (htx : l2.transactions = l.transactions)
    (hk : keysOf l2.balances = keysOf l.balances) (hh : HistOk l) : HistOk l2 := by
  intro t ht
  rw [htx] at ht
  obtain ⟨ch, hch, hmem⟩ := hh t ht
  exact ⟨ch, hch, fun p hp => by rw [hk]; exact hmem p hp⟩

theorem histOk_afterPush (l : Ledger) (t : Transaction) (ts2 : Amount) (b2 : UAMap)
    (hap : Ledger.apply_transaction l.total_spend l.balances t = (none, ts2, b2))
    (hh : HistOk l) : HistOk (l.afterPush t ts2 b2) := by
  have hkb2 : keysOf b2 = keysOf l.balances := by
    have := apply_transaction_keys l.total_spend l.balances t
    rw [hap] at this
    exact this
  have hok : ∃ ch, t.balance_updates = Except.ok ch ∧ ∀ p ∈ ch, p.1 ∈ keysOf l.balances := by
    rw [← apply_transaction_none_iff l.total_spend l.balances t, hap]
  intro t2 ht2
  simp only [Ledger.afterPush, List.mem_append, List.mem_singleton] at ht2
  rcases ht2 with hold | hnew
  · obtain ⟨ch, hch, hmem⟩ := hh t2 hold
    exact ⟨ch, hch, fun p hp => by
      simp only [Ledger.afterPush, hkb2]
      exact hmem p hp⟩
  · subst hnew
    obtain ⟨ch, hch, hmem⟩ := hok
    refine ⟨ch, ?_, fun p hp => by
      simp only [Ledger.afterPush, hkb2]
      exact hmem p hp⟩
    rw [balance_updates_set_id]
    exact hch

theorem histOk_add_transaction (l : Ledger) (t : Transaction) (hh : HistOk l) :
    HistOk (l.add_transaction t).2 := by
  rcases hap : Ledger.apply_transaction l.total_spend l.balances t with ⟨o, ts2, b2⟩
  have hkb2 : keysOf b2 = keysOf l.balances := by
    have := apply_transaction_keys l.total_spend l.balances t
    rw [hap] at this
    exact this
  cases o with
  | some e =>
    simp only [Ledger.add_transaction, hap]
    exact histOk_same l _ rfl hkb2 hh
  | none =>
    have hh1 : HistOk (l.afterPush t ts2 b2) := histOk_afterPush l t ts2 b2 hap hh
    simp only [Ledger.add_transaction, hap]
    by_cases hc : (l.afterPush t ts2 b2).needs_consistency_check = true
    · simp only [hc, if_true]
      have hs := reapply_all_shape (l.afterPush t ts2 b2)
      exact histOk_same _ _ hs.1 hs.2.2.2 hh1
    · simp only [hc, if_false]
      exact hh1

theorem add_transaction_fail_unchanged (l : Ledger) (t : Transaction) (e : TransactionError)
    (hh : HistOk l) (h : (l.add_transaction t).1 = some e) :
    (l.add_transaction t).2.next_id = l.next_id ∧
    (l.add_transaction t).2.transactions = l.transactions ∧
    (l.add_transaction t).2.users = l.users ∧
    keysOf (l.add_transaction t).2.balances = keysOf l.balances := by
  rcases hap : Ledger.apply_transaction l.total_spend l.balances t with ⟨o, ts2, b2⟩
  have hkb2 : keysOf b2 = keysOf l.balances := by
    have := apply_transaction_keys l.total_spend l.balances t
    rw [hap] at this
    exact this
  cases o with
  | some e2 => simp [Ledger.add_transaction, hap, hkb2]
  | none =>
    have hh1 : HistOk (l.afterPush t ts2 b2) := histOk_afterPush l t ts2 b2 hap hh
    exfalso
    simp only [Ledger.add_transaction, hap] at h
    by_cases hc : (l.afterPush t ts2 b2).needs_consistency_check = true
    · simp only [hc, if_true] at h
      have := reapply_all_ok (l.afterPush t ts2 b2) hh1
      rcases hr : (l.afterPush t ts2 b2).reapply_all with ⟨o2, l2⟩
      rw [hr] at this h
      simp only at this h
      rw [this] at h
      exact Option.noConfusion h
    · simp only [hc, if_false] at h
      exact Option.noConfusion h

/-- The id bookkeeping invariant: `next_id` is one past the history length and
the k-th stored transaction (1-based) carries id k. -/
def IdsOk (l : Ledger) : Prop :=
  l.next_id = l.transactions.length + 1 ∧
  ∀ (i : Nat) (h : i < l.transactions.length), (l.transactions[i]).id = i + 1

theorem idsOk_add_transaction (l : Ledger) (t : Transaction) (hh : HistOk l)
    (hi : IdsOk l) : IdsOk (l.add_transaction t).2 := by
  cases hfst : (l.add_transaction t).1 with
  | none =>
    obtain ⟨htx, hnid, _, _⟩ := add_transaction_ok_shape l t hfst
    constructor
    · rw [hnid, htx, List.length_append, hi.1]
      simp
    · intro i h
      simp only [htx] at h ⊢
      simp only [List.length_append, List.length_singleton] at h
      by_cases hlt : i < l.transactions.length
      · rw [List.getElem_append_left hlt]
        exact hi.2 i hlt
      · have hi2 : i = l.transactions.length := by omega
        rw [List.getElem_concat_length _ _ _ hi2]
        simp only [hi2, hi.1]
  | some e =>
    obtain ⟨hnid, htx, _, _⟩ := add_transaction_fail_unchanged l t e hh hfst
    constructor
    · rw [hnid, htx, hi.1]
    · intro i h
      simp only [htx] at h ⊢
      exact hi.2 i h

theorem histOk_execOp (l : Ledger) (op : LedgerOp) (hh : HistOk l) : HistOk (execOp l op) := by
  cases op with
  | addUser n =>
    exact histOk_same l (l.add_user n) rfl rfl hh
  | addExpense c b d => exact histOk_add_transaction l _ hh
  | addTransfer s t a d => exact histOk_add_transaction l _ hh
  | addTransaction t => exact histOk_add_transaction l _ hh
  | reverseById i =>
    cases hf : l.transactions.find? (fun t => t.id == i) with
    | none => simpa [execOp, Ledger.reverse_by_id, hf] using hh
    | some t =>
      cases hr : t.reverse with
      | error e => simpa [execOp, Ledger.reverse_by_id, hf, hr] using hh
      | ok r =>
        simpa [execOp, Ledger.reverse_by_id, hf, hr] using histOk_add_transaction l r hh

theorem idsOk_execOp (l : Ledger) (op : LedgerOp) (hh : HistOk l) (hi : IdsOk l) :
    IdsOk (execOp l op) := by
  cases op with
  | addUser n => exact ⟨hi.1, hi.2⟩
  | addExpense c b d => exact idsOk_add_transaction l _ hh hi
  | addTransfer s t a d => exact idsOk_add_transaction l _ hh hi
  | addTransaction t => exact idsOk_add_transaction l _ hh hi
  | reverseById i =>
    cases hf : l.transactions.find? (fun t => t.id == i) with
    | none => simpa [execOp, Ledger.reverse_by_id, hf] using hi
    | some t =>
      cases hr : t.reverse with
      | error e => simpa [execOp, Ledger.reverse_by_id, hf, hr] using hi
      | ok r =>
        simpa [execOp, Ledger.reverse_by_id, hf, hr] using idsOk_add_transaction l r hh hi

theorem invariant_new (names : List UserName) :
    HistOk (Ledger.new names) ∧ IdsOk (Ledger.new names) := by
  refine ⟨fun t ht => absurd ht (by simp [Ledger.new]), ⟨rfl, fun i h => absurd h (by simp [Ledger.new])⟩⟩

theorem invariant_execOps (l : Ledger) (ops : List LedgerOp)
    (hh : HistOk l) (hi : IdsOk l) : HistOk (execOps l ops) ∧ IdsOk (execOps l ops) := by
  induction ops generalizing l with
  | nil => exact ⟨hh, hi⟩
  | cons op rest ih =>
    exact ih (execOp l op) (histOk_execOp l op hh) (idsOk_execOp l op hh hi)

/-! ## Claims -/

/-- C1: `benefits_per_even()` (and hence `balance_updates()`) fails with
`ExcessBenefits{specified, spent}` exactly when `specified_benefits() >
total_spending()`; fails with `InsufficientBenefits{specified, spent}` exactly
when `specified_benefits() <= total_spending()`, `total_spending() -
specified_benefits() > 0` and `num_even_benefits() == 0`; returns `Ok(0)` when
the remainder is `0` and there are no `Even` entries; and otherwise returns
`Ok((total_spending() - specified_benefits()) / num_even_benefits())`, the
error payloads carrying the exact specified and spent values. -/
theorem claim_C1 (t : Transaction) :
    (t.benefits_per_even =
        Except.error (TransactionError.ExcessBenefits t.specified_benefits t.total_spending) ↔
      t.specified_benefits > t.total_spending) ∧
    (t.benefits_per_even =
        Except.error
          (TransactionError.InsufficientBenefits t.specified_benefits t.total_spending) ↔
      t.specified_benefits ≤ t.total_spending ∧
        t.total_spending - t.specified_benefits > 0 ∧ t.num_even_benefits = 0) ∧
    (t.total_spending - t.specified_benefits = 0 → t.num_even_benefits = 0 →
      t.benefits_per_even = Except.ok 0) ∧
    (t.specified_benefits ≤ t.total_spending → t.num_even_benefits ≠ 0 →
      t.benefits_per_even = Except.ok
        ((t.total_spending - t.specified_benefits) / (t.num_even_benefits : Amount))) ∧
    (∀ e, t.balance_updates = Except.error e ↔ t.benefits_per_even = Except.error e) := by
  have hbu : ∀ e, t.balance_updates = Except.error e ↔ t.benefits_per_even = Except.error e := by
    intro e
    simp only [Transaction.balance_updates]
    cases t.benefits_per_even <;> simp
  refine ⟨?_, ?_, ?_, ?_, hbu⟩
  · simp only [Transaction.benefits_per_even]
    split_ifs with h1 h2 h3 <;> simp [h1]
  · simp only [Transaction.benefits_per_even]
    split_ifs with h1 h2 h3
    · simp [not_le.mpr h1]
    · simp [h2.1, h2.2, not_lt.mp h1]
    · simp [h3.1]
    · simp only [h2]
      constructor
      · intro hfalse
        exact absurd hfalse (by simp)
      · intro hr
        exact hr.2.elim
  · intro h1 h2
    have heq := sub_eq_zero.mp h1
    simp [Transaction.benefits_per_even, heq, h2]
  · intro h1 h2
    simp [Transaction.benefits_per_even, not_lt.mpr h1, h2]

/-- Witness for C1 at concrete transactions: an `Even` split and an exactly
specified transaction without `Even` entries. -/
theorem claim_C1_witness :
    Transaction.benefits_per_even ⟨0, [("A", 3)], [("B", Benefit.Sum 1), ("C", Benefit.Even)],
        false, ""⟩ = Except.ok 2 ∧
    Transaction.benefits_per_even ⟨0, [("A", 3)], [("B", Benefit.Sum 3)], false, ""⟩ =
      Except.ok 0 := by
  constructor
  · have h := (claim_C1 ⟨0, [("A", 3)], [("B", Benefit.Sum 1), ("C", Benefit.Even)],
      false, ""⟩).2.2.2.1 (by decide) (by decide)
    rw [h]
    decide
  · exact (claim_C1 ⟨0, [("A", 3)], [("B", Benefit.Sum 3)], false, ""⟩).2.2.1
      (by decide) (by decide)

/-- C2 (code-bug evidence): on a fresh one-user ledger, adding a non-direct
transaction whose specified benefits (2) exceed its spending (1) makes
`add_transaction` return `ExcessBenefits` — yet `total_spend` has already been
incremented from 0 to 1, because `apply_transaction` adds `total_spending()`
to `total_spend` before `balance_updates()` is allowed to fail.  The write
path is therefore not all-or-nothing, contradicting the claim. -/
theorem claim_C2_code_bug :
    ((Ledger.new ["A"]).add_transaction
        ⟨0, [("A", 1)], [("A", Benefit.Sum 2)], false, ""⟩).1 =
      some (TransactionError.ExcessBenefits 2 1) ∧
    ((Ledger.new ["A"]).add_transaction
        ⟨0, [("A", 1)], [("A", Benefit.Sum 2)], false, ""⟩).2.total_spend = 1 ∧
    (Ledger.new ["A"]).total_spend = 0 := by
  decide

/-- C3: `reapply_all` commits exactly the fold of `apply_transaction` over the
whole history from zero balances (for every balance key) and zero total spend;
the recomputation is independent of the balance/total-spend values held before
the call; and on the write path `add_transaction` invokes `reapply_all`
exactly when the history length after appending is a multiple of
`CONSISTENCY_CHECK_INTERVAL = 100` (on an apply error nothing is appended and
no reconciliation happens). -/
theorem claim_C3 (l l2 : Ledger) (t : Transaction) (ts : Amount) (bal : UAMap) :
    ((l.reapply_all).1 = none →
      ∃ nt nb, applyAll 0 (zeroedBalances l.balances) l.transactions = Except.ok (nt, nb) ∧
        (l.reapply_all).2 = { l with total_spend := nt, balances := nb }) ∧
    (l.transactions = l2.transactions → keysOf l.balances = keysOf l2.balances →
      (l.reapply_all).1 = (l2.reapply_all).1 ∧
      ((l.reapply_all).1 = none →
        (l.reapply_all).2.balances = (l2.reapply_all).2.balances ∧
        (l.reapply_all).2.total_spend = (l2.reapply_all).2.total_spend)) ∧
    (Ledger.apply_transaction l.total_spend l.balances t = (none, ts, bal) →
      ((l.transactions.length + 1) % CONSISTENCY_CHECK_INTERVAL = 0 →
        l.add_transaction t = (l.afterPush t ts bal).reapply_all) ∧
      ((l.transactions.length + 1) % CONSISTENCY_CHECK_INTERVAL ≠ 0 →
        l.add_transaction t = (none, l.afterPush t ts bal))) ∧
    (∀ e, Ledger.apply_transaction l.total_spend l.balances t = (some e, ts, bal) →
      l.add_transaction t = (some e, { l with total_spend := ts, balances := bal })) := by
  refine ⟨?_, ?_, ?_, ?_⟩
  · intro h
    simp only [Ledger.reapply_all] at h ⊢
    cases hr : applyAll 0 (zeroedBalances l.balances) l.transactions with
    | error e =>
      rw [hr] at h
      simp at h
    | ok r =>
      obtain ⟨nt, nb⟩ := r
      exact ⟨nt, nb, rfl, by simp⟩
  · intro htx hk
    have hz : zeroedBalances l.balances = zeroedBalances l2.balances := by
      have h1 : ∀ m : UAMap, zeroedBalances m = (keysOf m).map (fun k => (k, (0 : Amount))) := by
        intro m
        simp [zeroedBalances, keysOf, List.map_map, Function.comp]
      rw [h1, h1, hk]
    simp only [Ledger.reapply_all, htx, hz]
    cases applyAll 0 (zeroedBalances l2.balances) l2.transactions with
    | error e => simp
    | ok r =>
      obtain ⟨nt, nb⟩ := r
      simp
  · intro hap
    have hlen : (l.afterPush t ts bal).transactions.length = l.transactions.length + 1 := by
      simp [Ledger.afterPush]
    constructor
    · intro h100
      have hc : (l.afterPush t ts bal).needs_consistency_check = true := by
        simp [Ledger.needs_consistency_check, hlen, h100]
      simp [Ledger.add_transaction, hap, hc]
    · intro h100
      have hc : ¬ (l.afterPush t ts bal).needs_consistency_check = true := by
        simp [Ledger.needs_consistency_check, hlen, h100]
      simp [Ledger.add_transaction, hap, hc]
  · intro e hap
    have h1 : (Ledger.apply_transaction l.total_spend l.balances t).1 = some e := by
      rw [hap]
    have := add_transaction_err_shape l t e h1
    rw [hap] at this
    exact this

/-- Witness for C3: on a fresh one-user ledger the first added transaction
(history length 1) does not trigger reconciliation, and reconciliation of the
empty history commits the zeroed fold. -/
theorem claim_C3_witness :
    (Ledger.new ["A"]).add_transaction (transferTxn "A" "A" 5 "") =
      (none, (Ledger.new ["A"]).afterPush (transferTxn "A" "A" 5 "") 0 [("A", 0)]) ∧
    (∃ nt nb, applyAll 0 (zeroedBalances (Ledger.new ["A"]).balances)
        (Ledger.new ["A"]).transactions = Except.ok (nt, nb) ∧
      ((Ledger.new ["A"]).reapply_all).2 =
        { Ledger.new ["A"] with total_spend := nt, balances := nb }) := by
  constructor
  · exact ((claim_C3 (Ledger.new ["A"]) (Ledger.new ["A"]) (transferTxn "A" "A" 5 "") 0
      [("A", 0)]).2.2.1 (by decide)).2 (by decide)
  · exact (claim_C3 (Ledger.new ["A"]) (Ledger.new ["A"]) (transferTxn "A" "A" 5 "") 0
      [("A", 0)]).1 (by decide)

/-! ## Lemmas for reversal round-trips -/

theorem insertAmt_not_mem (m : UAMap) (u : UserName) (v : Amount)
    (h : ¬ u ∈ keysOf m) : insertAmt m u v = m ++ [(u, v)] := by
  induction m with
  | nil => simp [insertAmt]
  | cons p rest ih =>
    simp only [keysOf, List.map_cons, List.mem_cons] at h
    push_neg at h
    simp only [insertAmt, if_neg (fun hh : p.1 = u => h.1 hh.symm)]
    rw [ih (by simpa [keysOf] using h.2)]
    simp

theorem foldl_insertAmt_nodup (cs : List (UserName × Amount)) :
    ∀ m : UAMap, (cs.map Prod.fst).Nodup → (∀ p ∈ cs, ¬ p.1 ∈ keysOf m) →
      cs.foldl (fun m2 p => insertAmt m2 p.1 p.2) m = m ++ cs := by
  induction cs with
  | nil => intro m _ _; simp
  | cons p rest ih =>
    intro m hnd hdis
    simp only [List.map_cons, List.nodup_cons] at hnd
    simp only [List.foldl_cons]
    rw [insertAmt_not_mem m p.1 p.2 (hdis p (List.mem_cons_self p rest))]
    rw [ih (m ++ [(p.1, p.2)]) hnd.2 ?dis]
    · simp
    case dis =>
      intro q hq
      have hq1 : q.1 ∈ rest.map Prod.fst := List.mem_map_of_mem Prod.fst hq
      have hqp : ¬ q.1 = p.1 := fun hh => hnd.1 (hh ▸ hq1)
      have hkeys : keysOf (m ++ [(p.1, p.2)]) = keysOf m ++ [p.1] := by simp [keysOf]
      rw [hkeys]
      simp only [List.mem_append, List.mem_singleton]
      push_neg
      exact ⟨hdis q (List.mem_cons_of_mem p hq), hqp⟩

theorem sumBenefitsFor_cons (b : Amount) (k : UserName) (p : UserName × Benefit)
    (rest : List (UserName × Benefit)) :
    sumBenefitsFor b k (p :: rest) =
      (if p.1 = k then finalBenefit b p.2 else 0) + sumBenefitsFor b k rest := by
  by_cases h : p.1 = k <;> simp [sumBenefitsFor, List.filter_cons, h]

theorem sumBenefitsFor_eq_zero (b : Amount) (k : UserName)
    (bs : List (UserName × Benefit)) (h : ¬ k ∈ bs.map Prod.fst) :
    sumBenefitsFor b k bs = 0 := by
  induction bs with
  | nil => rfl
  | cons p rest ih =>
    simp only [List.map_cons, List.mem_cons] at h
    push_neg at h
    rw [sumBenefitsFor_cons, ih h.2, if_neg (fun hh => h.1 hh.symm)]
    simp

theorem lookup_foldl_addAmt (bs : List (UserName × Benefit)) (b : Amount) :
    ∀ (m : UAMap) (k : UserName),
      lookupAmt (bs.foldl (fun m2 p => addAmt m2 p.1 (-(finalBenefit b p.2))) m) k =
        if k ∈ bs.map Prod.fst then
          some ((lookupAmt m k).getD 0 - sumBenefitsFor b k bs)
        else lookupAmt m k := by
  induction bs with
  | nil => intro m k; simp
  | cons p rest ih =>
    intro m k
    simp only [List.foldl_cons]
    rw [ih (addAmt m p.1 (-(finalBenefit b p.2))) k]
    by_cases hk : k = p.1
    · rw [hk]
      by_cases hmem : p.1 ∈ rest.map Prod.fst
      · rw [if_pos hmem, lookupAmt_addAmt, if_pos rfl, List.map_cons,
          if_pos (List.mem_cons_self p.1 _), sumBenefitsFor_cons, if_pos rfl]
        congr 1
        simp only [Option.getD_some]
        ring
      · rw [if_neg hmem, lookupAmt_addAmt, if_pos rfl, List.map_cons,
          if_pos (List.mem_cons_self p.1 _), sumBenefitsFor_cons, if_pos rfl,
          sumBenefitsFor_eq_zero b p.1 rest hmem]
        congr 1
        ring
    · have hpk : ¬ p.1 = k := fun hh => hk hh.symm
      by_cases hmem : k ∈ rest.map Prod.fst
      · rw [if_pos hmem, lookupAmt_addAmt, if_neg hk, List.map_cons,
          if_pos (List.mem_cons_of_mem p.1 hmem), sumBenefitsFor_cons, if_neg hpk]
        congr 1
        ring
      · rw [if_neg hmem, lookupAmt_addAmt, if_neg hk, List.map_cons,
          if_neg (by simp [hk, hmem])]

theorem lookupBen_isSome_iff (bs : List (UserName × Benefit)) (k : UserName) :
    (lookupBen bs k).isSome ↔ k ∈ bs.map Prod.fst := by
  induction bs with
  | nil => simp [lookupBen]
  | cons p rest ih =>
    simp only [lookupBen, List.map_cons, List.mem_cons]
    by_cases h : p.1 = k
    · simp [h]
    · rw [if_neg h, ih, or_iff_right (fun hh : k = p.1 => h hh.symm)]

theorem lookupAmt_map_finalBenefit (bs : List (UserName × Benefit)) (b : Amount)
    (k : UserName) :
    lookupAmt (bs.map (fun p => (p.1, finalBenefit b p.2))) k =
      (lookupBen bs k).map (finalBenefit b) := by
  induction bs with
  | nil => rfl
  | cons p rest ih =>
    by_cases h : p.1 = k <;> simp [lookupAmt, lookupBen, h, ih]

theorem lookupBen_map_sum (cs : UAMap) (k : UserName) :
    lookupBen (cs.map (fun p => (p.1, Benefit.Sum p.2))) k =
      (lookupAmt cs k).map Benefit.Sum := by
  induction cs with
  | nil => rfl
  | cons p rest ih =>
    by_cases h : p.1 = k <;> simp [lookupAmt, lookupBen, h, ih]

theorem sumBenefitsFor_nodup (bs : List (UserName × Benefit)) (b : Amount) (k : UserName)
    (hnd : (bs.map Prod.fst).Nodup) :
    sumBenefitsFor b k bs = ((lookupBen bs k).map (finalBenefit b)).getD 0 := by
  induction bs with
  | nil => rfl
  | cons p rest ih =>
    simp only [List.map_cons, List.nodup_cons] at hnd
    by_cases h : p.1 = k
    · rw [sumBenefitsFor_cons, if_pos h, sumBenefitsFor_eq_zero b k rest (h ▸ hnd.1)]
      simp [lookupBen, h]
    · rw [sumBenefitsFor_cons, if_neg h, ih hnd.2]
      simp [lookupBen, h]

theorem num_even_foldl (bs : List (UserName × Benefit)) :
    ∀ c : Nat, bs.foldl (fun c p => match p.2 with | Benefit.Even => c + 1 | _ => c) c =
      c + bs.countP (fun p => match p.2 with | Benefit.Even => true | _ => false) := by
  induction bs with
  | nil => intro c; simp
  | cons p rest ih =>
    obtain ⟨u, ben⟩ := p
    intro c
    cases ben with
    | Sum v =>
      simp [List.countP_cons, ih]
    | Even =>
      simp [List.countP_cons, ih]
      rw [Nat.add_assoc, Nat.add_comm 1]

theorem sumFin_split (bs : List (UserName × Benefit)) (b : Amount) :
    (bs.map (fun p => finalBenefit b p.2)).sum =
      (bs.map (fun p => match p.2 with | Benefit.Sum v => v | Benefit.Even => 0)).sum +
      (bs.countP (fun p => match p.2 with | Benefit.Even => true | _ => false) : Amount) * b := by
  induction bs with
  | nil => simp
  | cons p rest ih =>
    obtain ⟨u, ben⟩ := p
    cases ben with
    | Sum v =>
      have h1 : finalBenefit b (Benefit.Sum v) = v := rfl
      simp only [List.map_cons, List.sum_cons, List.countP_cons, ih, h1]
      simp
      try push_cast
      try ring
    | Even =>
      have h1 : finalBenefit b Benefit.Even = b := rfl
      simp only [List.map_cons, List.sum_cons, List.countP_cons, ih, h1]
      simp
      try push_cast
      try ring

/-- When `benefits_per_even` succeeds with share `b`, the final benefit
amounts sum to exactly the total spending. -/
theorem bpe_sum_eq (t : Transaction) (b : Amount) (hb : t.benefits_per_even = Except.ok b) :
    (t.benefits.map (fun p => finalBenefit b p.2)).sum = t.total_spending := by
  have hcnt : t.num_even_benefits =
      t.benefits.countP (fun p => match p.2 with | Benefit.Even => true | _ => false) := by
    rw [Transaction.num_even_benefits, num_even_foldl]
    simp
  have hspec : (t.benefits.map
      (fun p => match p.2 with | Benefit.Sum v => v | Benefit.Even => 0)).sum =
      t.specified_benefits := rfl
  rw [sumFin_split, ← hcnt, hspec]
  simp only [Transaction.benefits_per_even] at hb
  split_ifs at hb with h1 h2 h3
  · have hb0 : b = 0 := by
      have := hb
      simp only [Except.ok.injEq] at this
      exact this.symm
    have heq : t.total_spending = t.specified_benefits := sub_eq_zero.mp h3.1
    rw [hb0, heq]
    ring
  · have hbv : b = (t.total_spending - t.specified_benefits) / (t.num_even_benefits : Amount) := by
      simp only [Except.ok.injEq] at hb
      exact hb.symm
    have hev : t.num_even_benefits ≠ 0 := by
      intro h0
      rcases lt_trichotomy (t.total_spending - t.specified_benefits) 0 with hlt | heq | hgt
      · have : t.specified_benefits > t.total_spending := by linarith
        exact h1 this
      · exact h3 ⟨heq, h0⟩
      · exact h2 ⟨hgt, h0⟩
    have hne : (t.num_even_benefits : Amount) ≠ 0 := Nat.cast_ne_zero.mpr hev
    rw [hbv, mul_comm, div_mul_cancel₀ _ hne]
    ring

theorem reverse_ok (t : Transaction) (b : Amount) (hb : t.benefits_per_even = Except.ok b) :
    t.reverse = Except.ok
      ⟨0, t.benefits.map (fun p => (p.1, finalBenefit b p.2)),
        t.contributions.map (fun p => (p.1, Benefit.Sum p.2)), false,
        "Undo " ++ hex04 t.id⟩ := by
  simp [Transaction.reverse, hb]

theorem reverse_total_spending (t : Transaction) (b : Amount)
    (hb : t.benefits_per_even = Except.ok b) (i : Nat) (d : String) (dir : Bool) :
    Transaction.total_spending
      ⟨i, t.benefits.map (fun p => (p.1, finalBenefit b p.2)),
        t.contributions.map (fun p => (p.1, Benefit.Sum p.2)), dir, d⟩ =
      t.total_spending := by
  simp only [Transaction.total_spending, List.map_map]
  exact bpe_sum_eq t b hb

theorem reverse_specified (t : Transaction) (b : Amount) (i : Nat) (d : String) (dir : Bool) :
    Transaction.specified_benefits
      ⟨i, t.benefits.map (fun p => (p.1, finalBenefit b p.2)),
        t.contributions.map (fun p => (p.1, Benefit.Sum p.2)), dir, d⟩ =
      t.total_spending := by
  simp only [Transaction.specified_benefits, List.map_map]
  rfl

theorem reverse_num_even (t : Transaction) (b : Amount) (i : Nat) (d : String) (dir : Bool) :
    Transaction.num_even_benefits
      ⟨i, t.benefits.map (fun p => (p.1, finalBenefit b p.2)),
        t.contributions.map (fun p => (p.1, Benefit.Sum p.2)), dir, d⟩ = 0 := by
  simp only [Transaction.num_even_benefits]
  rw [num_even_foldl]
  simp only [List.countP_map, Nat.zero_add]
  rw [List.countP_eq_zero]
  intro p hp
  simp [Function.comp]

theorem reverse_bpe_ok (t : Transaction) (b : Amount)
    (hb : t.benefits_per_even = Except.ok b) (i : Nat) (d : String) (dir : Bool) :
    Transaction.benefits_per_even
      ⟨i, t.benefits.map (fun p => (p.1, finalBenefit b p.2)),
        t.contributions.map (fun p => (p.1, Benefit.Sum p.2)), dir, d⟩ = Except.ok 0 := by
  simp only [Transaction.benefits_per_even, reverse_total_spending t b hb i d dir,
    reverse_specified t b i d dir, reverse_num_even t b i d dir]
  simp [lt_irrefl, sub_self]

theorem balance_updates_ok_elim (t : Transaction) (D : UAMap)
    (hD : t.balance_updates = Except.ok D) :
    ∃ b, t.benefits_per_even = Except.ok b ∧
      D = t.benefits.foldl (fun m p => addAmt m p.1 (-(finalBenefit b p.2)))
        (t.contributions.foldl (fun m p => insertAmt m p.1 p.2) []) := by
  simp only [Transaction.balance_updates] at hD
  cases hbe : t.benefits_per_even with
  | error e =>
    rw [hbe] at hD
    exact absurd hD (by simp)
  | ok b =>
    rw [hbe] at hD
    simp only [Except.ok.injEq] at hD
    exact ⟨b, rfl, hD.symm⟩

theorem lookup_balance_updates (t : Transaction) (b : Amount) (D : UAMap)
    (hb : t.benefits_per_even = Except.ok b) (hD : t.balance_updates = Except.ok D)
    (hnd : (t.contributions.map Prod.fst).Nodup) (k : UserName) :
    lookupAmt D k =
      if k ∈ t.benefits.map Prod.fst then
        some ((lookupAmt t.contributions k).getD 0 - sumBenefitsFor b k t.benefits)
      else lookupAmt t.contributions k := by
  obtain ⟨b2, hb2, hDeq⟩ := balance_updates_ok_elim t D hD
  rw [hb] at hb2
  simp only [Except.ok.injEq] at hb2
  subst hb2
  rw [hDeq, foldl_insertAmt_nodup t.contributions [] hnd (by intro p hp; simp [keysOf]),
    List.nil_append, lookup_foldl_addAmt]

/-- C4 counterexample: the round-trip claim fails as stated.  With a duplicate
contribution user the `insert` in `balance_updates` keeps only the last amount
(delta A = 2), while the reversal turns both contributions into `Sum` benefits,
which accumulate (delta A = -3 instead of -2).  Symmetrically, a duplicate
benefit user accumulates in the original (delta B = -5) but is overwritten in
the reversal, whose contributions then keep only the last amount
(delta B = 3 instead of 5).  All amounts here (1, 2, 3, 5) and every
intermediate value are exactly representable in `f32`, so the program computes
the same numbers. -/
theorem claim_C4_counterexample :
    (Transaction.balance_updates ⟨0, [("A", 1), ("A", 2)], [("B", Benefit.Sum 3)], false, ""⟩ =
        Except.ok [("A", 2), ("B", -3)] ∧
      revUpdates ⟨0, [("A", 1), ("A", 2)], [("B", Benefit.Sum 3)], false, ""⟩ =
        Except.ok [("B", 3), ("A", -3)] ∧
      ¬ ((-3 : Amount) = -(2 : Amount))) ∧
    (Transaction.balance_updates
        ⟨0, [("A", 5)], [("B", Benefit.Sum 2), ("B", Benefit.Sum 3)], false, ""⟩ =
        Except.ok [("A", 5), ("B", -5)] ∧
      revUpdates ⟨0, [("A", 5)], [("B", Benefit.Sum 2), ("B", Benefit.Sum 3)], false, ""⟩ =
        Except.ok [("B", 3), ("A", -5)] ∧
      ¬ ((3 : Amount) = -(-5 : Amount))) := by
  decide

/-- C4 as amended: for every transaction whose contribution user names and
benefit user names are each duplicate-free and whose benefits contain no
`Even` entry, if `balance_updates()` succeeds with delta map `D` then
`reverse()` succeeds and the reversed transaction's `balance_updates()`
yields a map with the same key set whose entry for every user is the negation
of the entry in `D`.

The `Even` exclusion is forced by `f32`, beyond the duplicate-user
counterexample: with contributions `[(A, 1.0)]` and ten distinct `Even`
beneficiaries, the program rounds the per-even share to `0.1f32`, and the ten
reversed contributions re-sum to `1.0000001 > 1.0`, so the reversed
transaction's `balance_updates()` fails with `InsufficientBenefits` — an
error path an exact-arithmetic model cannot reproduce.  On the all-`Sum`
fragment the statement does transfer to `f32`: success of the original
requires the code's own `spending - specified == 0.0` test, hence bitwise
equality of the two float sums; the reversal re-sums the same float lists in
the same order, so its split check passes exactly; and each per-user delta is
one subtraction, whose IEEE result negates exactly under operand swap. -/
theorem claim_C4 (t : Transaction)
    (hc : (t.contributions.map Prod.fst).Nodup)
    (hbn : (t.benefits.map Prod.fst).Nodup)
    (_hnoe : t.num_even_benefits = 0)
    (D : UAMap) (hD : t.balance_updates = Except.ok D) :
    ∃ R, t.reverse = Except.ok R ∧ ∃ D2, R.balance_updates = Except.ok D2 ∧
      ∀ u, lookupAmt D2 u = (lookupAmt D u).map (fun x => -x) := by
  obtain ⟨b, hb, _⟩ := balance_updates_ok_elim t D hD
  refine ⟨⟨0, t.benefits.map (fun p => (p.1, finalBenefit b p.2)),
      t.contributions.map (fun p => (p.1, Benefit.Sum p.2)), false,
      "Undo " ++ hex04 t.id⟩, reverse_ok t b hb, ?_⟩
  have hbR : Transaction.benefits_per_even
      ⟨0, t.benefits.map (fun p => (p.1, finalBenefit b p.2)),
        t.contributions.map (fun p => (p.1, Benefit.Sum p.2)), false,
        "Undo " ++ hex04 t.id⟩ = Except.ok 0 := reverse_bpe_ok t b hb 0 _ false
  have hndR : ((t.benefits.map (fun p => (p.1, finalBenefit b p.2))).map Prod.fst).Nodup := by
    rw [List.map_map]
    exact hbn
  have hD2 : Transaction.balance_updates
      ⟨0, t.benefits.map (fun p => (p.1, finalBenefit b p.2)),
        t.contributions.map (fun p => (p.1, Benefit.Sum p.2)), false,
        "Undo " ++ hex04 t.id⟩ =
      Except.ok ((t.contributions.map (fun p => (p.1, Benefit.Sum p.2))).foldl
        (fun m p => addAmt m p.1 (-(finalBenefit 0 p.2)))
        ((t.benefits.map (fun p => (p.1, finalBenefit b p.2))).foldl
          (fun m p => insertAmt m p.1 p.2) [])) := by
    simp only [Transaction.balance_updates, hbR]
  refine ⟨_, hD2, ?_⟩
  intro u
  rw [lookup_balance_updates _ 0 _ hbR hD2 hndR u]
  rw [lookup_balance_updates t b D hb hD hc u]
  have e3 : (t.contributions.map (fun p => (p.1, Benefit.Sum p.2))).map Prod.fst =
      t.contributions.map Prod.fst := by
    rw [List.map_map]
    rfl
  have e4 : sumBenefitsFor 0 u (t.contributions.map (fun p => (p.1, Benefit.Sum p.2))) =
      (lookupAmt t.contributions u).getD 0 := by
    rw [sumBenefitsFor_nodup _ 0 u (by rw [e3]; exact hc), lookupBen_map_sum]
    cases lookupAmt t.contributions u <;> rfl
  have e5 : sumBenefitsFor b u t.benefits =
      ((lookupBen t.benefits u).map (finalBenefit b)).getD 0 :=
    sumBenefitsFor_nodup t.benefits b u hbn
  rw [lookupAmt_map_finalBenefit, e3, e4, e5]
  have hmemC : u ∈ t.contributions.map Prod.fst ↔ (lookupAmt t.contributions u).isSome :=
    (lookupAmt_isSome_iff t.contributions u).symm
  have hmemB : u ∈ t.benefits.map Prod.fst ↔ (lookupBen t.benefits u).isSome :=
    (lookupBen_isSome_iff t.benefits u).symm
  cases hC : lookupAmt t.contributions u with
  | none =>
    cases hF : lookupBen t.benefits u with
    | none =>
      rw [if_neg (fun hmm => by rw [hmemC, hC] at hmm; simp at hmm),
        if_neg (fun hmm => by rw [hmemB, hF] at hmm; simp at hmm)]
      rfl
    | some f =>
      rw [if_neg (fun hmm => by rw [hmemC, hC] at hmm; simp at hmm),
        if_pos (hmemB.mpr (by rw [hF]; rfl))]
      simp only [Option.map_some', Option.getD_some, Option.getD_none, Option.map_none']
      congr 1
      ring
  | some c =>
    cases hF : lookupBen t.benefits u with
    | none =>
      rw [if_pos (hmemC.mpr (by rw [hC]; rfl)),
        if_neg (fun hmm => by rw [hmemB, hF] at hmm; simp at hmm)]
      simp only [Option.map_some', Option.getD_some, Option.getD_none, Option.map_none']
      congr 1
      ring
    | some f =>
      rw [if_pos (hmemC.mpr (by rw [hC]; rfl)), if_pos (hmemB.mpr (by rw [hF]; rfl))]
      simp only [Option.map_some', Option.getD_some]
      congr 1
      ring

/-- Witness for C4 at an exactly specified transaction: contributions Bilbo 32
and Frodo 12, benefits Legolas Sum 30 and Gimli Sum 14. -/
theorem claim_C4_witness :
    ∃ R, Transaction.reverse ⟨0, [("Bilbo", 32), ("Frodo", 12)],
        [("Legolas", Benefit.Sum 30), ("Gimli", Benefit.Sum 14)],
        false, ""⟩ = Except.ok R ∧
      ∃ D2, R.balance_updates = Except.ok D2 ∧
        ∀ u, lookupAmt D2 u =
          (lookupAmt [("Bilbo", (32 : Amount)), ("Frodo", 12), ("Legolas", -30), ("Gimli", -14)]
              u).map (fun x => -x) :=
  claim_C4 _ (by decide) (by decide) (by decide) _ (by decide)

/-- C5 (code-bug evidence): with the duplicate contributions
`[("A",1),("A",2)]` the `insert` used by `balance_updates` overwrites, so
user A's returned delta is 2 — not the accumulated 1 + 2 = 3 the claim (and
the spec, which calls the overwrite "the earlier overwrite bug") mandates. -/
theorem claim_C5_code_bug :
    Transaction.balance_updates ⟨0, [("A", 1), ("A", 2)], [("B", Benefit.Sum 3)], false, ""⟩ =
      Except.ok [("A", 2), ("B", -3)] ∧
    lookupAmt [("A", (2 : Amount)), ("B", -3)] "A" = some 2 ∧
    ¬ ((2 : Amount) = 1 + 2) := by
  decide

/-- C6 (code-bug evidence): after `add_user("Merry")` on `Ledger::new(["Bilbo"])`
the `users` map contains Merry, but `balances` holds no entry for Merry
(`add_user` inserts into `users` only), and a subsequent transfer to Merry
fails with `UnknownUser("Merry")` — contradicting the claim. -/
theorem claim_C6_code_bug :
    "Merry" ∈ ((Ledger.new ["Bilbo"]).add_user "Merry").users ∧
    lookupAmt ((Ledger.new ["Bilbo"]).add_user "Merry").balances "Merry" = none ∧
    (((Ledger.new ["Bilbo"]).add_user "Merry").add_transfer "Bilbo" "Merry" 32 "").1 =
      some (TransactionError.UnknownUser "Merry") := by
  decide

set_option maxRecDepth 200000

/-- C7 counterexample: the claim fails as stated when the transfer is the
100th transaction of a ledger whose balances are inconsistent with its
history (such states are reachable: deserialisation accepts them, and the
non-atomic error path of `add_transaction` creates them).  Here A's balance
is 100 while the replay value of the 99 stored transfers is 99; the new
transfer succeeds, triggers reconciliation, and A ends at the replay value
100 instead of the claimed 100 + 1. -/
theorem claim_C7_counterexample :
    lookupAmt (Ledger.mk 100 [("A", 100), ("B", 0)] ["A", "B"]
        (List.replicate 99 (transferTxn "A" "B" 1 "x")) 0).balances "A" = some 100 ∧
    ((Ledger.mk 100 [("A", 100), ("B", 0)] ["A", "B"]
        (List.replicate 99 (transferTxn "A" "B" 1 "x")) 0).add_transfer "A" "B" 1 "").1 =
      none ∧
    lookupAmt ((Ledger.mk 100 [("A", 100), ("B", 0)] ["A", "B"]
        (List.replicate 99 (transferTxn "A" "B" 1 "x")) 0).add_transfer
          "A" "B" 1 "").2.balances "A" = some 100 ∧
    ¬ ((100 : Amount) = 100 + 1) := by
  decide

/-- C7 as amended: for every ledger whose balances contain both of the
distinct users `src` and `dst`, and for which the appended transfer is not a
100th transaction (so no reconciliation replaces the incremental state),
`add_transfer` succeeds, adds `amount` to src's balance, subtracts it from
dst's balance, and leaves `total_spend` and every other balance unchanged. -/
theorem claim_C7 (l : Ledger) (src dst : UserName) (amount : Amount) (d : String)
    (hne : ¬ src = dst)
    (hsrc : src ∈ keysOf l.balances) (hdst : dst ∈ keysOf l.balances)
    (h100 : (l.transactions.length + 1) % CONSISTENCY_CHECK_INTERVAL ≠ 0) :
    (l.add_transfer src dst amount d).1 = none ∧
    lookupAmt (l.add_transfer src dst amount d).2.balances src =
      (lookupAmt l.balances src).map (· + amount) ∧
    lookupAmt (l.add_transfer src dst amount d).2.balances dst =
      (lookupAmt l.balances dst).map (· + (-amount)) ∧
    (∀ u, ¬ u = src → ¬ u = dst →
      lookupAmt (l.add_transfer src dst amount d).2.balances u = lookupAmt l.balances u) ∧
    (l.add_transfer src dst amount d).2.total_spend = l.total_spend := by
  have hbpe : (transferTxn src dst amount d).benefits_per_even = Except.ok 0 := by
    simp [transferTxn, Transaction.benefits_per_even, Transaction.total_spending,
      Transaction.specified_benefits, Transaction.num_even_benefits]
  have hbu : (transferTxn src dst amount d).balance_updates =
      Except.ok [(src, amount), (dst, -amount)] := by
    simp only [Transaction.balance_updates, hbpe]
    simp [transferTxn, insertAmt, addAmt, finalBenefit, hne]
  obtain ⟨bal1, h1⟩ : ∃ b1, setAdd l.balances src amount = some b1 :=
    Option.isSome_iff_exists.mp ((setAdd_isSome_iff l.balances src amount).mpr hsrc)
  have hk1 : keysOf bal1 = keysOf l.balances := setAdd_keys l.balances bal1 src amount h1
  obtain ⟨bal2, h2⟩ : ∃ b2, setAdd bal1 dst (-amount) = some b2 :=
    Option.isSome_iff_exists.mp
      ((setAdd_isSome_iff bal1 dst (-amount)).mpr (by rw [hk1]; exact hdst))
  have hupd : update_balances l.balances [(src, amount), (dst, -amount)] = (none, bal2) := by
    simp [update_balances, h1, h2]
  have hA : Ledger.apply_transaction l.total_spend l.balances (transferTxn src dst amount d) =
      (none, l.total_spend, bal2) := by
    simp only [Ledger.apply_transaction, hbu, hupd]
    simp [transferTxn]
  have hc : ¬ (l.afterPush (transferTxn src dst amount d) l.total_spend
      bal2).needs_consistency_check = true := by
    simp [Ledger.needs_consistency_check, Ledger.afterPush, h100]
  have hadd : l.add_transfer src dst amount d =
      (none, l.afterPush (transferTxn src dst amount d) l.total_spend bal2) := by
    simp [Ledger.add_transfer, Ledger.add_transaction, hA, hc]
  rw [hadd]
  have hl1 : ∀ k, lookupAmt bal1 k =
      if k = src then (lookupAmt l.balances src).map (· + amount) else lookupAmt l.balances k :=
    setAdd_lookup l.balances bal1 src amount h1
  have hl2 : ∀ k, lookupAmt bal2 k =
      if k = dst then (lookupAmt bal1 dst).map (· + (-amount)) else lookupAmt bal1 k :=
    setAdd_lookup bal1 bal2 dst (-amount) h2
  refine ⟨rfl, ?_, ?_, ?_, rfl⟩
  · show lookupAmt bal2 src = (lookupAmt l.balances src).map (· + amount)
    rw [hl2 src, if_neg hne, hl1 src, if_pos rfl]
  · show lookupAmt bal2 dst = (lookupAmt l.balances dst).map (· + (-amount))
    rw [hl2 dst, if_pos rfl, hl1 dst, if_neg (fun hh => hne hh.symm)]
  · intro u hu1 hu2
    show lookupAmt bal2 u = lookupAmt l.balances u
    rw [hl2 u, if_neg hu2, hl1 u, if_neg hu1]

/-- Witness for C7: a transfer of 3 from A to B on a fresh two-user ledger. -/
theorem claim_C7_witness :
    ((Ledger.new ["A", "B"]).add_transfer "A" "B" 3 "").1 = none ∧
    lookupAmt ((Ledger.new ["A", "B"]).add_transfer "A" "B" 3 "").2.balances "A" =
      (lookupAmt (Ledger.new ["A", "B"]).balances "A").map (· + 3) ∧
    ((Ledger.new ["A", "B"]).add_transfer "A" "B" 3 "").2.total_spend =
      (Ledger.new ["A", "B"]).total_spend := by
  have h := claim_C7 (Ledger.new ["A", "B"]) "A" "B" 3 "" (by decide) (by decide) (by decide)
    (by decide)
  exact ⟨h.1, h.2.1, h.2.2.2.2⟩

theorem transfer_bpe (src dst : UserName) (amount : Amount) (d : String) :
    (transferTxn src dst amount d).benefits_per_even = Except.ok 0 := by
  simp [transferTxn, Transaction.benefits_per_even, Transaction.total_spending,
    Transaction.specified_benefits, Transaction.num_even_benefits]

theorem transfer_updates (src dst : UserName) (amount : Amount) (d : String)
    (hne : ¬ src = dst) :
    (transferTxn src dst amount d).balance_updates =
      Except.ok [(src, amount), (dst, -amount)] := by
  simp only [Transaction.balance_updates, transfer_bpe]
  simp [transferTxn, insertAmt, addAmt, finalBenefit, hne]

theorem transfer_reverse (src dst : UserName) (amount : Amount) (d : String) :
    (transferTxn src dst amount d).reverse = Except.ok
      ⟨0, [(dst, amount)], [(src, Benefit.Sum amount)], false, "Undo " ++ hex04 0⟩ := by
  simp only [Transaction.reverse, transfer_bpe]
  simp [transferTxn, finalBenefit]

/-- C9 counterexample for the total-spend consequence as stated: on a ledger
whose 98 stored transactions are non-direct expenses of 1 but whose
`total_spend` field is 0 (inconsistent states are reachable through the
non-atomic error path or deserialisation), a direct transfer of 7 leaves
`total_spend` at 0, but applying its reverse is the 100th transaction: the
triggered reconciliation recomputes `total_spend` as 98 + 7 = 105 instead of
the claimed 0 + 7 = 7. -/
theorem claim_C9_counterexample :
    (transferTxn "A" "B" 7 "").reverse = Except.ok
      ⟨0, [("B", 7)], [("A", Benefit.Sum 7)], false, "Undo 0000"⟩ ∧
    ((Ledger.mk 99 [("A", 98), ("B", -98)] ["A", "B"]
        (List.replicate 98 ⟨0, [("A", 1)], [("B", Benefit.Sum 1)], false, "x"⟩) 0).add_transfer
          "A" "B" 7 "").1 = none ∧
    ((Ledger.mk 99 [("A", 98), ("B", -98)] ["A", "B"]
        (List.replicate 98 ⟨0, [("A", 1)], [("B", Benefit.Sum 1)], false, "x"⟩) 0).add_transfer
          "A" "B" 7 "").2.total_spend = 0 ∧
    (((Ledger.mk 99 [("A", 98), ("B", -98)] ["A", "B"]
        (List.replicate 98 ⟨0, [("A", 1)], [("B", Benefit.Sum 1)], false, "x"⟩) 0).add_transfer
          "A" "B" 7 "").2.add_transaction
        ⟨0, [("B", 7)], [("A", Benefit.Sum 7)], false, "Undo 0000"⟩).1 = none ∧
    (((Ledger.mk 99 [("A", 98), ("B", -98)] ["A", "B"]
        (List.replicate 98 ⟨0, [("A", 1)], [("B", Benefit.Sum 1)], false, "x"⟩) 0).add_transfer
          "A" "B" 7 "").2.add_transaction
        ⟨0, [("B", 7)], [("A", Benefit.Sum 7)], false, "Undo 0000"⟩).2.total_spend = 105 ∧
    ¬ ((105 : Amount) = 0 + 7) := by
  refine ⟨by decide, by decide, by decide, by decide, by decide, by decide⟩

/-- C9 as amended: `reverse()` always produces a non-direct transaction; and
for a direct transfer successfully applied to a ledger, provided neither the
transfer nor its reversal is a 100th transaction (no reconciliation overwrites
the incremental state), the transfer leaves `total_spend` unchanged and
applying the reverse increases `total_spend` by exactly the transfer's
`total_spending()`. -/
theorem claim_C9 :
    (∀ (t r : Transaction), t.reverse = Except.ok r → r.is_direct = false) ∧
    (∀ (l : Ledger) (src dst : UserName) (amount : Amount) (d : String),
      (l.add_transfer src dst amount d).1 = none →
      (l.transactions.length + 1) % CONSISTENCY_CHECK_INTERVAL ≠ 0 →
      (l.transactions.length + 2) % CONSISTENCY_CHECK_INTERVAL ≠ 0 →
      ∀ r, (transferTxn src dst amount d).reverse = Except.ok r →
        (l.add_transfer src dst amount d).2.total_spend = l.total_spend ∧
        ((l.add_transfer src dst amount d).2.add_transaction r).1 = none ∧
        ((l.add_transfer src dst amount d).2.add_transaction r).2.total_spend =
          l.total_spend + (transferTxn src dst amount d).total_spending ∧
        (transferTxn src dst amount d).total_spending = amount) := by
  constructor
  · intro t r hr
    simp only [Transaction.reverse] at hr
    cases hbe : t.benefits_per_even with
    | error e =>
      rw [hbe] at hr
      exact absurd hr (by simp)
    | ok b =>
      rw [hbe] at hr
      simp only [Except.ok.injEq] at hr
      rw [← hr]
  · intro l src dst amount d hok h99 h100 r hr
    rw [transfer_reverse] at hr
    simp only [Except.ok.injEq] at hr
    subst hr
    have htot : (transferTxn src dst amount d).total_spending = amount := by
      simp [transferTxn, Transaction.total_spending]
    rcases happ : Ledger.apply_transaction l.total_spend l.balances (transferTxn src dst amount d)
      with ⟨o, ts2, b2⟩
    cases o with
    | some e =>
      have hshape := add_transaction_err_shape l (transferTxn src dst amount d) e (by rw [happ])
      rw [Ledger.add_transfer] at hok
      rw [hshape] at hok
      exact absurd hok (by simp)
    | none =>
      have hc : ¬ (l.afterPush (transferTxn src dst amount d) ts2
          b2).needs_consistency_check = true := by
        simp only [Ledger.needs_consistency_check, Ledger.afterPush, List.length_append,
          List.length_singleton, beq_iff_eq, CONSISTENCY_CHECK_INTERVAL]
        simp only [CONSISTENCY_CHECK_INTERVAL] at h99
        omega
      have hadd : l.add_transfer src dst amount d =
          (none, l.afterPush (transferTxn src dst amount d) ts2 b2) := by
        simp [Ledger.add_transfer, Ledger.add_transaction, happ, hc]
      rw [hadd]
      have hts2 : ts2 = l.total_spend := by
        have h := apply_transaction_total l.total_spend l.balances (transferTxn src dst amount d)
        rw [happ] at h
        simpa [transferTxn] using h
      have hkb2 : keysOf b2 = keysOf l.balances := by
        have h := apply_transaction_keys l.total_spend l.balances (transferTxn src dst amount d)
        rw [happ] at h
        exact h
      obtain ⟨ch, hch, hmem⟩ := (apply_transaction_none_iff l.total_spend l.balances
        (transferTxn src dst amount d)).mp (by rw [happ])
      have ho2core : ∃ ch2, Transaction.balance_updates
          ⟨0, [(dst, amount)], [(src, Benefit.Sum amount)], false, "Undo " ++ hex04 0⟩ =
          Except.ok ch2 ∧ ∀ p ∈ ch2, p.1 ∈ keysOf l.balances := by
        by_cases hsd : src = dst
        · subst hsd
          have hbuS : (transferTxn src src amount d).balance_updates =
              Except.ok [(src, amount + -amount)] := by
            simp only [Transaction.balance_updates, transfer_bpe]
            simp [transferTxn, insertAmt, addAmt, finalBenefit]
          rw [hbuS] at hch
          simp only [Except.ok.injEq] at hch
          subst hch
          have hsK : src ∈ keysOf l.balances := hmem (src, amount + -amount) (by simp)
          have hbpe2 : Transaction.benefits_per_even
              ⟨0, [(src, amount)], [(src, Benefit.Sum amount)], false, "Undo " ++ hex04 0⟩ =
              Except.ok 0 := by
            simp [Transaction.benefits_per_even, Transaction.total_spending,
              Transaction.specified_benefits, Transaction.num_even_benefits]
          refine ⟨[(src, amount + -amount)], ?_, ?_⟩
          · simp only [Transaction.balance_updates, hbpe2]
            simp [insertAmt, addAmt, finalBenefit]
          · intro p hp
            simp only [List.mem_cons, List.not_mem_nil, or_false] at hp
            rw [hp]
            exact hsK
        · rw [transfer_updates src dst amount d hsd] at hch
          simp only [Except.ok.injEq] at hch
          subst hch
          have hsK : src ∈ keysOf l.balances := hmem (src, amount) (by simp)
          have hdK : dst ∈ keysOf l.balances := hmem (dst, -amount) (by simp)
          have hbpe2 : Transaction.benefits_per_even
              ⟨0, [(dst, amount)], [(src, Benefit.Sum amount)], false, "Undo " ++ hex04 0⟩ =
              Except.ok 0 := by
            simp [Transaction.benefits_per_even, Transaction.total_spending,
              Transaction.specified_benefits, Transaction.num_even_benefits]
          have hne2 : ¬ dst = src := fun hh => hsd hh.symm
          refine ⟨[(dst, amount), (src, -amount)], ?_, ?_⟩
          · simp only [Transaction.balance_updates, hbpe2]
            simp [insertAmt, addAmt, finalBenefit, hne2]
          · intro p hp
            simp only [List.mem_cons, List.not_mem_nil, or_false] at hp
            rcases hp with hp | hp
            · rw [hp]
              exact hdK
            · rw [hp]
              exact hsK
      obtain ⟨ch2, hbu2, hmem2⟩ := ho2core
      rcases happ2 : Ledger.apply_transaction
          (l.afterPush (transferTxn src dst amount d) ts2 b2).total_spend
          (l.afterPush (transferTxn src dst amount d) ts2 b2).balances
          ⟨0, [(dst, amount)], [(src, Benefit.Sum amount)], false, "Undo " ++ hex04 0⟩
        with ⟨o2, ts3, b3⟩
      have ho2 : o2 = none := by
        have h := (apply_transaction_none_iff
          (l.afterPush (transferTxn src dst amount d) ts2 b2).total_spend
          (l.afterPush (transferTxn src dst amount d) ts2 b2).balances
          ⟨0, [(dst, amount)], [(src, Benefit.Sum amount)], false, "Undo " ++ hex04 0⟩).mpr
          ⟨ch2, hbu2, ?_⟩
        · rw [happ2] at h
          exact h
        · intro p hp
          have hb : (l.afterPush (transferTxn src dst amount d) ts2 b2).balances = b2 := rfl
          rw [hb, hkb2]
          exact hmem2 p hp
      subst ho2
      have hts3 : ts3 = l.total_spend + amount := by
        have h := apply_transaction_total
          (l.afterPush (transferTxn src dst amount d) ts2 b2).total_spend
          (l.afterPush (transferTxn src dst amount d) ts2 b2).balances
          ⟨0, [(dst, amount)], [(src, Benefit.Sum amount)], false, "Undo " ++ hex04 0⟩
        rw [happ2] at h
        simpa [Ledger.afterPush, hts2, Transaction.total_spending] using h
      have hc2 : ¬ ((l.afterPush (transferTxn src dst amount d) ts2 b2).afterPush
          ⟨0, [(dst, amount)], [(src, Benefit.Sum amount)], false, "Undo " ++ hex04 0⟩
          ts3 b3).needs_consistency_check = true := by
        simp only [Ledger.needs_consistency_check, Ledger.afterPush, List.length_append,
          List.length_singleton, beq_iff_eq, CONSISTENCY_CHECK_INTERVAL]
        simp only [CONSISTENCY_CHECK_INTERVAL] at h100
        omega
      have haddr : (l.afterPush (transferTxn src dst amount d) ts2 b2).add_transaction
          ⟨0, [(dst, amount)], [(src, Benefit.Sum amount)], false, "Undo " ++ hex04 0⟩ =
          (none, (l.afterPush (transferTxn src dst amount d) ts2 b2).afterPush
            ⟨0, [(dst, amount)], [(src, Benefit.Sum amount)], false, "Undo " ++ hex04 0⟩
            ts3 b3) := by
        simp [Ledger.add_transaction, happ2, hc2]
      rw [haddr]
      refine ⟨by simp [Ledger.afterPush, hts2], rfl, ?_, htot⟩
      show ((l.afterPush (transferTxn src dst amount d) ts2 b2).afterPush
          ⟨0, [(dst, amount)], [(src, Benefit.Sum amount)], false, "Undo " ++ hex04 0⟩
          ts3 b3).total_spend = l.total_spend + (transferTxn src dst amount d).total_spending
      simp [Ledger.afterPush, hts3, htot]

/-- Witness for C9: a transfer of 3 from A to B on a fresh two-user ledger,
followed by its reverse. -/
theorem claim_C9_witness :
    ((Ledger.new ["A", "B"]).add_transfer "A" "B" 3 "").2.total_spend =
      (Ledger.new ["A", "B"]).total_spend ∧
    (((Ledger.new ["A", "B"]).add_transfer "A" "B" 3 "").2.add_transaction
        ⟨0, [("B", 3)], [("A", Benefit.Sum 3)], false, "Undo 0000"⟩).1 = none ∧
    (((Ledger.new ["A", "B"]).add_transfer "A" "B" 3 "").2.add_transaction
        ⟨0, [("B", 3)], [("A", Benefit.Sum 3)], false, "Undo 0000"⟩).2.total_spend =
      (Ledger.new ["A", "B"]).total_spend + (transferTxn "A" "B" 3 "").total_spending := by
  have h := claim_C9.2 (Ledger.new ["A", "B"]) "A" "B" 3 "" (by decide)
    (by decide) (by decide) ⟨0, [("B", 3)], [("A", Benefit.Sum 3)], false, "Undo 0000"⟩
    (by decide)
  exact ⟨h.1, h.2.1, h.2.2.1⟩

/-- C8 (modelled from the spec, since `Ledger::reverse_by_id` is only called,
not defined, under src/): `reverse_by_id(id)` fails with
`UnknownTransactionId(id)` when no stored transaction carries that id;
otherwise it computes the found transaction's `reverse()` and routes it
through `add_transaction`, so on success the reversal is appended as a new
transaction carrying the ledger-assigned fresh id. -/
theorem claim_C8 (l : Ledger) (tid : Nat) :
    ((∀ t ∈ l.transactions, t.id ≠ tid) →
      l.reverse_by_id tid = (some (TransactionError.UnknownTransactionId tid), l)) ∧
    (∀ t, l.transactions.find? (fun t2 => t2.id == tid) = some t →
      (∀ e, t.reverse = Except.error e → l.reverse_by_id tid = (some e, l)) ∧
      (∀ r, t.reverse = Except.ok r →
        l.reverse_by_id tid = l.add_transaction r ∧
        ((l.add_transaction r).1 = none →
          (l.reverse_by_id tid).2.transactions =
            l.transactions ++ [{ r with id := l.next_id }]))) := by
  constructor
  · intro hno
    have hf : l.transactions.find? (fun t2 => t2.id == tid) = none := by
      rw [List.find?_eq_none]
      intro t ht
      simpa using hno t ht
    simp [Ledger.reverse_by_id, hf]
  · intro t hf
    constructor
    · intro e he
      simp [Ledger.reverse_by_id, hf, he]
    · intro r hr
      have heq : l.reverse_by_id tid = l.add_transaction r := by
        simp [Ledger.reverse_by_id, hf, hr]
      refine ⟨heq, ?_⟩
      intro hok
      rw [heq]
      exact (add_transaction_ok_shape l r hok).1

/-- Witness for C8: an unknown id on a fresh ledger, and the reversal of the
first transfer on a two-user ledger. -/
theorem claim_C8_witness :
    (Ledger.new ["A"]).reverse_by_id 5 =
      (some (TransactionError.UnknownTransactionId 5), Ledger.new ["A"]) ∧
    (((Ledger.new ["A", "B"]).add_transfer "A" "B" 3 "").2.reverse_by_id 1).2.transactions =
      ((Ledger.new ["A", "B"]).add_transfer "A" "B" 3 "").2.transactions ++
        [{ (⟨0, [("B", 3)], [("A", Benefit.Sum 3)], false, "Undo 0001"⟩ : Transaction) with
          id := ((Ledger.new ["A", "B"]).add_transfer "A" "B" 3 "").2.next_id }] := by
  constructor
  · exact (claim_C8 (Ledger.new ["A"]) 5).1 (by decide)
  · exact (((claim_C8 ((Ledger.new ["A", "B"]).add_transfer "A" "B" 3 "").2 1).2
      ⟨1, [("A", 3)], [("B", Benefit.Sum 3)], true, ""⟩ (by decide)).2
      ⟨0, [("B", 3)], [("A", Benefit.Sum 3)], false, "Undo 0001"⟩ (by decide)).2 (by decide)

/-- C10: for every ledger reachable from `Ledger::new` through any sequence of
public operations, `next_id` equals `transactions.len() + 1` and the k-th
stored transaction (1-based) carries id k; on success `add_transaction`
appends the transaction with the ledger-assigned id, overwriting any
caller-supplied id; and on failure `next_id` is unchanged. -/
theorem claim_C10 (names : List UserName) (ops : List LedgerOp) :
    (execOps (Ledger.new names) ops).next_id =
      (execOps (Ledger.new names) ops).transactions.length + 1 ∧
    (∀ (i : Nat) (h : i < (execOps (Ledger.new names) ops).transactions.length),
      ((execOps (Ledger.new names) ops).transactions[i]).id = i + 1) ∧
    (∀ t, ((execOps (Ledger.new names) ops).add_transaction t).1 = none →
      ((execOps (Ledger.new names) ops).add_transaction t).2.transactions =
        (execOps (Ledger.new names) ops).transactions ++
          [{ t with id := (execOps (Ledger.new names) ops).next_id }]) ∧
    (∀ t e, ((execOps (Ledger.new names) ops).add_transaction t).1 = some e →
      ((execOps (Ledger.new names) ops).add_transaction t).2.next_id =
        (execOps (Ledger.new names) ops).next_id) := by
  obtain ⟨hh, hi⟩ := invariant_execOps (Ledger.new names) ops
    (invariant_new names).1 (invariant_new names).2
  refine ⟨hi.1, hi.2, ?_, ?_⟩
  · intro t ht
    exact (add_transaction_ok_shape _ t ht).1
  · intro t e ht
    exact (add_transaction_fail_unchanged _ t e hh ht).1

/-- Witness for C10 after one transfer: the id bookkeeping holds, and a failing
transaction (unknown user Z) leaves `next_id` unchanged. -/
theorem claim_C10_witness :
    (execOps (Ledger.new ["A"]) [LedgerOp.addTransfer "A" "A" 5 ""]).next_id =
      (execOps (Ledger.new ["A"]) [LedgerOp.addTransfer "A" "A" 5 ""]).transactions.length + 1 ∧
    ((execOps (Ledger.new ["A"]) [LedgerOp.addTransfer "A" "A" 5 ""]).add_transaction
        (transferTxn "A" "Z" 1 "")).2.next_id =
      (execOps (Ledger.new ["A"]) [LedgerOp.addTransfer "A" "A" 5 ""]).next_id := by
  refine ⟨(claim_C10 ["A"] [LedgerOp.addTransfer "A" "A" 5 ""]).1, ?_⟩
  exact (claim_C10 ["A"] [LedgerOp.addTransfer "A" "A" 5 ""]).2.2.2
    (transferTxn "A" "Z" 1 "") (TransactionError.UnknownUser "Z") (by decide)
